import Mathlib

/-!
Verification of the DeepResearch repository's token-budget tracker,
agent query processing, event streaming and task persistence, as a
shallow embedding of the Python sources.

Sources embedded:
* `deepresearch/utils/token_tracker.py` — `TokenTracker`
* `deepresearch/agent.py` and `deepresearch-py/deepresearch/agent.py` —
  `Agent._process_query`, `Agent.process_query`, `Agent.stream_events`
* `deepresearch/main.py` — `store_task_result`, `get_task`

Python `int` is embedded as `Int`; optional values as `Option`;
Python `dict` (unique keys, insertion ordered) as an association list
manipulated only through `dictGet` / `dictSet`.
-/

/-- One recorded usage entry. `types.py` is absent from the sources, but the
shape of `TokenUsage` is pinned by its construction
`TokenUsage(tool=tool, tokens=tokens)` and the field reads `usage.tool`,
`usage.tokens` in `token_tracker.py`. -/
structure TokenUsage where
  tool : String
  tokens : Int
deriving DecidableEq

/-- State of `TokenTracker` (`token_tracker.py`, lines 6-9): a list of
recorded usages and an optional integer budget. -/
structure TokenTracker where
  usages : List TokenUsage
  budget : Option Int
deriving DecidableEq

/-- Python truthiness of the optional integer budget: `if self.budget:` is
true exactly when the budget is neither `None` nor `0`. -/
def budgetTruthy : Option Int → Bool
  | none => false
  | some b => b != 0

/-- Result of one `track_usage` call: the tracker state afterwards, and
whether the `logging.error` branch ran. -/
structure TrackResult where
  tracker : TokenTracker
  errorLogged : Bool
deriving DecidableEq

/-- Embedding of `TokenTracker.get_total_usage` (`token_tracker.py`, lines
22-23): `sum(usage.tokens for usage in self.usages)`. -/
def TokenTracker.get_total_usage (t : TokenTracker) : Int :=
  (t.usages.map (·.tokens)).sum

/-- Embedding of the body of `TokenTracker.track_usage` (`token_tracker.py`,
lines 11-20) with the snapshot `current_total` passed explicitly, so that the
statement-level interleaving of two unsynchronized callers can be expressed:
a concurrent call may still hold a total read before another call appended.
With `current_total = t.get_total_usage` this is exactly the sequential call
(see `TokenTracker.track_usage`). -/
def TokenTracker.track_usage_from_snapshot (t : TokenTracker) (tool : String)
    (tokens current_total : Int) : TrackResult :=
  if budgetTruthy t.budget ∧ current_total + tokens > t.budget.getD 0 then
    ⟨t, true⟩
  else if ¬ budgetTruthy t.budget ∨ current_total + tokens ≤ t.budget.getD 0 then
    ⟨{ t with usages := t.usages ++ [⟨tool, tokens⟩] }, false⟩
  else
    ⟨t, false⟩

/-- Embedding of `TokenTracker.track_usage` (`token_tracker.py`, lines 11-20):
read `current_total = self.get_total_usage()`; if the budget is truthy and
`current_total + tokens > self.budget`, log an error and return; otherwise
(`not self.budget or current_total + tokens <= self.budget`) append one
`TokenUsage(tool, tokens)` entry. -/
def TokenTracker.track_usage (t : TokenTracker) (tool : String)
    (tokens : Int) : TrackResult :=
  t.track_usage_from_snapshot tool tokens t.get_total_usage

/-- Embedding of `TokenTracker.reset` (`token_tracker.py`, lines 38-39):
`self.usages = []`, the budget field untouched. -/
def TokenTracker.reset (t : TokenTracker) : TokenTracker :=
  { t with usages := [] }

/-- Python `d.get(k, dflt)` on the association-list embedding of a dict. -/
def dictGet (d : List (String × Int)) (k : String) (dflt : Int) : Int :=
  match d.find? (fun kv => kv.1 == k) with
  | some kv => kv.2
  | none => dflt

/-- Python `d[k] = v` on the association-list embedding of a dict: update the
entry in place when the key is present, append it otherwise. -/
def dictSet (d : List (String × Int)) (k : String) (v : Int) :
    List (String × Int) :=
  if d.any (fun kv => kv.1 == k) then
    d.map (fun kv => if kv.1 == k then (k, v) else kv)
  else
    d ++ [(k, v)]

/-- Embedding of `TokenTracker.get_usage_breakdown` (`token_tracker.py`,
lines 25-29): fold over `self.usages`, doing
`breakdown[usage.tool] = breakdown.get(usage.tool, 0) + usage.tokens`. -/
def TokenTracker.get_usage_breakdown (t : TokenTracker) :
    List (String × Int) :=
  t.usages.foldl (fun d u => dictSet d u.tool (dictGet d u.tool 0 + u.tokens)) []

/-- Keys of an embedded dict, in order. -/
def dictKeys (d : List (String × Int)) : List String :=
  d.map Prod.fst

/-- Sum of the values of an embedded dict. -/
def sumValues (d : List (String × Int)) : Int :=
  (d.map Prod.snd).sum

/-- Total of the amounts recorded for one tool in a usage list. -/
def toolSum (usages : List TokenUsage) (tool : String) : Int :=
  ((usages.filter (fun u => u.tool == tool)).map (·.tokens)).sum

/-- A sequence of sequential `track_usage` calls, each given as a
tool-name/amount pair. -/
def TokenTracker.runCalls (t : TokenTracker) (calls : List (String × Int)) :
    TokenTracker :=
  calls.foldl (fun s c => (s.track_usage c.1 c.2).tracker) t

/-! Lemmas about the embedded Python dict. -/

lemma dictGet_nil (k : String) (dflt : Int) : dictGet [] k dflt = dflt := rfl

lemma dictGet_cons (k1 : String) (v1 : Int) (d : List (String × Int))
    (k : String) (dflt : Int) :
    dictGet ((k1, v1) :: d) k dflt = if k1 = k then v1 else dictGet d k dflt := by
  by_cases h : k1 = k
  · simp [dictGet, List.find?, h]
  · have hb : (k1 == k) = false := by simp [h]
    simp [dictGet, List.find?, hb, h]

lemma dictSet_cons_eq (v1 : Int) (d : List (String × Int)) (k : String)
    (v : Int) :
    dictSet ((k, v1) :: d) k v
      = (k, v) :: d.map (fun kv => if kv.1 == k then (k, v) else kv) := by
  simp [dictSet]

lemma dictSet_cons_ne (k1 : String) (v1 : Int) (d : List (String × Int))
    (k : String) (v : Int) (h : ¬ k1 = k) :
    dictSet ((k1, v1) :: d) k v = (k1, v1) :: dictSet d k v := by
  by_cases hd : d.any (fun kv => kv.1 == k)
  · simp [dictSet, hd, h]
  · simp [dictSet, hd, h]

lemma map_dictSet_id (d : List (String × Int)) (k : String) (v : Int)
    (h : ∀ kv ∈ d, ¬ kv.1 = k) :
    d.map (fun kv => if kv.1 == k then (k, v) else kv) = d := by
  induction d with
  | nil => rfl
  | cons a rest ih =>
    have ha := h a (by simp)
    simp only [List.map_cons, List.cons.injEq]
    refine ⟨by simp [ha], ih fun kv hkv => h kv (by simp [hkv])⟩

lemma dictGet_dictSet_self (d : List (String × Int)) (k : String)
    (v dflt : Int) :
    dictGet (dictSet d k v) k dflt = v := by
  induction d with
  | nil => simp [dictSet, dictGet]
  | cons a rest ih =>
    obtain ⟨k1, v1⟩ := a
    by_cases h : k1 = k
    · subst h
      rw [dictSet_cons_eq, dictGet_cons]
      simp
    · rw [dictSet_cons_ne _ _ _ _ _ h, dictGet_cons, if_neg h]
      exact ih

lemma dictGet_map_set (d : List (String × Int)) (k k' : String)
    (v dflt : Int) (h : ¬ k' = k) :
    dictGet (d.map (fun kv => if kv.1 == k then (k, v) else kv)) k' dflt
      = dictGet d k' dflt := by
  induction d with
  | nil => rfl
  | cons a rest ih =>
    obtain ⟨k1, v1⟩ := a
    by_cases h1 : k1 = k
    · subst h1
      simp only [List.map_cons]
      rw [if_pos (by simp), dictGet_cons, dictGet_cons,
        if_neg (fun he => h he.symm), if_neg (fun he => h he.symm)]
      exact ih
    · simp only [List.map_cons]
      rw [if_neg (by simp [h1]), dictGet_cons, dictGet_cons]
      by_cases h2 : k1 = k'
      · rw [if_pos h2, if_pos h2]
      · rw [if_neg h2, if_neg h2]
        exact ih

lemma dictGet_append_single (d : List (String × Int)) (k k' : String)
    (v dflt : Int) (h : ¬ k' = k) :
    dictGet (d ++ [(k, v)]) k' dflt = dictGet d k' dflt := by
  induction d with
  | nil =>
    rw [List.nil_append, dictGet_cons, if_neg (fun he => h he.symm), dictGet_nil]
  | cons a rest ih =>
    obtain ⟨k1, v1⟩ := a
    rw [List.cons_append, dictGet_cons, dictGet_cons]
    by_cases h2 : k1 = k'
    · rw [if_pos h2, if_pos h2]
    · rw [if_neg h2, if_neg h2]
      exact ih

lemma dictGet_dictSet_ne (d : List (String × Int)) (k k' : String)
    (v dflt : Int) (h : ¬ k' = k) :
    dictGet (dictSet d k v) k' dflt = dictGet d k' dflt := by
  unfold dictSet
  by_cases hd : d.any (fun kv => kv.1 == k)
  · rw [if_pos hd]
    exact dictGet_map_set d k k' v dflt h
  · rw [if_neg hd]
    exact dictGet_append_single d k k' v dflt h

lemma dictKeys_dictSet (d : List (String × Int)) (k : String) (v : Int) :
    dictKeys (dictSet d k v)
      = if d.any (fun kv => kv.1 == k) then dictKeys d else dictKeys d ++ [k] := by
  by_cases hd : d.any (fun kv => kv.1 == k)
  · rw [if_pos hd]
    unfold dictSet
    rw [if_pos hd]
    unfold dictKeys
    rw [List.map_map]
    apply List.map_congr_left
    intro kv _
    by_cases hk : kv.1 = k
    · simp [Function.comp, hk]
    · simp [Function.comp, hk]
  · rw [if_neg hd]
    unfold dictSet
    rw [if_neg hd]
    simp [dictKeys]

lemma not_any_key (d : List (String × Int)) (k : String)
    (hd : ¬ d.any (fun kv => kv.1 == k)) : ∀ kv ∈ d, ¬ kv.1 = k := by
  intro kv hkv he
  exact hd (List.any_eq_true.mpr ⟨kv, hkv, by simp [he]⟩)

lemma dictKeys_nodup_dictSet (d : List (String × Int)) (k : String) (v : Int)
    (h : (dictKeys d).Nodup) : (dictKeys (dictSet d k v)).Nodup := by
  rw [dictKeys_dictSet]
  by_cases hd : d.any (fun kv => kv.1 == k)
  · rw [if_pos hd]
    exact h
  · rw [if_neg hd]
    have hk : k ∉ dictKeys d := by
      intro hmem
      obtain ⟨kv, hkv, he⟩ := List.mem_map.mp hmem
      exact not_any_key d k hd kv hkv he
    simp [List.nodup_append, h, hk]

lemma sumValues_cons (k1 : String) (v1 : Int) (d : List (String × Int)) :
    sumValues ((k1, v1) :: d) = v1 + sumValues d := by
  simp [sumValues]

lemma sumValues_dictSet (d : List (String × Int)) (k : String) (x : Int)
    (h : (dictKeys d).Nodup) :
    sumValues (dictSet d k (dictGet d k 0 + x)) = sumValues d + x := by
  induction d with
  | nil => simp [dictSet, dictGet, sumValues]
  | cons a rest ih =>
    obtain ⟨k1, v1⟩ := a
    have h' := List.nodup_cons.mp (show (k1 :: dictKeys rest).Nodup from h)
    have h1 : k1 ∉ dictKeys rest := h'.1
    have h2 : (dictKeys rest).Nodup := h'.2
    by_cases hk : k1 = k
    · subst hk
      rw [dictGet_cons, if_pos rfl, dictSet_cons_eq, sumValues_cons, sumValues_cons]
      have hmap :
          rest.map (fun kv => if kv.1 == k1 then (k1, v1 + x) else kv) = rest := by
        apply map_dictSet_id
        intro kv hkv he
        exact h1 (List.mem_map.mpr ⟨kv, hkv, he⟩)
      rw [hmap]
      ring
    · rw [dictGet_cons, if_neg hk, dictSet_cons_ne _ _ _ _ _ hk, sumValues_cons,
        ih h2, sumValues_cons]
      ring

lemma toolSum_cons (u : TokenUsage) (rest : List TokenUsage) (k : String) :
    toolSum (u :: rest) k
      = (if u.tool = k then u.tokens else 0) + toolSum rest k := by
  by_cases h : u.tool = k
  · simp [toolSum, h]
  · simp [toolSum, h]

/-- Master lemma about the `get_usage_breakdown` fold: starting from any
accumulator dict with distinct keys, the fold keeps the keys distinct, adds
the total of all processed amounts to the sum of the values, and adds each
tool's amounts to that tool's entry. -/
lemma breakdown_fold (l : List TokenUsage) :
    ∀ d : List (String × Int), (dictKeys d).Nodup →
      (dictKeys (l.foldl
          (fun d u => dictSet d u.tool (dictGet d u.tool 0 + u.tokens)) d)).Nodup
      ∧ sumValues (l.foldl
          (fun d u => dictSet d u.tool (dictGet d u.tool 0 + u.tokens)) d)
        = sumValues d + (l.map (·.tokens)).sum
      ∧ ∀ k, dictGet (l.foldl
          (fun d u => dictSet d u.tool (dictGet d u.tool 0 + u.tokens)) d) k 0
        = dictGet d k 0 + toolSum l k := by
  induction l with
  | nil =>
    intro d hd
    refine ⟨hd, by simp, ?_⟩
    intro k
    simp [toolSum]
  | cons u rest ih =>
    intro d hd
    have hd' := dictKeys_nodup_dictSet d u.tool (dictGet d u.tool 0 + u.tokens) hd
    obtain ⟨ihn, ihs, ihg⟩ := ih (dictSet d u.tool (dictGet d u.tool 0 + u.tokens)) hd'
    refine ⟨by simpa using ihn, ?_, ?_⟩
    · rw [List.foldl_cons, ihs, sumValues_dictSet d u.tool u.tokens hd]
      simp
      ring
    · intro k
      rw [List.foldl_cons, ihg k, toolSum_cons]
      by_cases hk : u.tool = k
      · subst hk
        rw [dictGet_dictSet_self, if_pos rfl]
        ring
      · rw [dictGet_dictSet_ne _ _ _ _ _ (fun he => hk he.symm), if_neg hk]
        ring

/-! Lemmas about `track_usage`. -/

lemma track_usage_reject (t : TokenTracker) (tool : String) (amt : Int)
    (hc : budgetTruthy t.budget = true
      ∧ t.get_total_usage + amt > t.budget.getD 0) :
    t.track_usage tool amt = ⟨t, true⟩ := by
  unfold TokenTracker.track_usage TokenTracker.track_usage_from_snapshot
  rw [if_pos hc]

lemma track_usage_append (t : TokenTracker) (tool : String) (amt : Int)
    (hc : ¬ (budgetTruthy t.budget = true
      ∧ t.get_total_usage + amt > t.budget.getD 0)) :
    t.track_usage tool amt
      = ⟨⟨t.usages ++ [⟨tool, amt⟩], t.budget⟩, false⟩ := by
  unfold TokenTracker.track_usage TokenTracker.track_usage_from_snapshot
  rw [if_neg hc, if_pos]
  rcases not_and_or.mp hc with h | h
  · exact Or.inl h
  · exact Or.inr (not_lt.mp h)

lemma get_total_usage_append (usages : List TokenUsage) (b : Option Int)
    (u : TokenUsage) :
    (⟨usages ++ [u], b⟩ : TokenTracker).get_total_usage
      = (⟨usages, b⟩ : TokenTracker).get_total_usage + u.tokens := by
  simp [TokenTracker.get_total_usage]

/-- C1: for a tracker whose budget is set to a positive ceiling, a sequential
`track_usage(tool, amount)` call rejects the addition (leaving the tracker
unchanged) and logs an error exactly when the running total plus the amount
would exceed the budget; otherwise it records exactly one entry carrying the
full amount for that tool. -/
theorem C1_track_usage_budget_gate (t : TokenTracker) (tool : String)
    (amt b : Int) (hb : t.budget = some b) (hpos : 0 < b) :
    (((t.track_usage tool amt).errorLogged = true
        ∧ (t.track_usage tool amt).tracker = t)
      ↔ t.get_total_usage + amt > b)
    ∧ (t.get_total_usage + amt ≤ b →
        (t.track_usage tool amt).tracker.usages = t.usages ++ [⟨tool, amt⟩]
        ∧ (t.track_usage tool amt).errorLogged = false) := by
  have hne : b ≠ 0 := hpos.ne'
  by_cases hover : t.get_total_usage + amt > b
  · have hr := track_usage_reject t tool amt
      ⟨by simp [hb, budgetTruthy, hne], by rw [hb]; exact hover⟩
    rw [hr]
    exact ⟨by simp [hover], fun hle => absurd hover (not_lt.mpr hle)⟩
  · have ha := track_usage_append t tool amt
      (fun hc => hover (by rw [hb] at hc; exact hc.2))
    rw [ha]
    constructor
    · simp [hover]
    · intro _
      exact ⟨rfl, rfl⟩

/-- Witness for C1: an empty tracker with budget 10 records a 3-token call
in full without logging. -/
theorem C1_track_usage_budget_gate_witness :
    ((⟨[], some 10⟩ : TokenTracker).track_usage "agent" 3).tracker.usages
      = [⟨"agent", 3⟩]
    ∧ ((⟨[], some 10⟩ : TokenTracker).track_usage "agent" 3).errorLogged
      = false :=
  (C1_track_usage_budget_gate ⟨[], some 10⟩ "agent" 3 10 rfl (by decide)).2
    (by decide)

/-- C2: a `track_usage` call whose amount would push the running total over a
truthy budget leaves the tracker state entirely unchanged: same state, same
`get_total_usage()`, same `get_usage_breakdown()`, no partial amount. -/
theorem C2_reject_is_all_or_nothing (t : TokenTracker) (tool : String)
    (amt b : Int) (hb : t.budget = some b) (hne : b ≠ 0)
    (hover : t.get_total_usage + amt > b) :
    (t.track_usage tool amt).tracker = t
    ∧ (t.track_usage tool amt).tracker.get_total_usage = t.get_total_usage
    ∧ (t.track_usage tool amt).tracker.get_usage_breakdown
      = t.get_usage_breakdown := by
  have hr := track_usage_reject t tool amt
    ⟨by simp [hb, budgetTruthy, hne], by rw [hb]; exact hover⟩
  rw [hr]
  exact ⟨rfl, rfl, rfl⟩

/-- Witness for C2: a tracker holding 5 of a 10 budget drops a 20-token call
entirely. -/
theorem C2_reject_is_all_or_nothing_witness :
    ((⟨[⟨"agent", 5⟩], some 10⟩ : TokenTracker).track_usage "read" 20).tracker
      = ⟨[⟨"agent", 5⟩], some 10⟩
    ∧ ((⟨[⟨"agent", 5⟩], some 10⟩ : TokenTracker).track_usage
        "read" 20).tracker.get_total_usage
      = (⟨[⟨"agent", 5⟩], some 10⟩ : TokenTracker).get_total_usage
    ∧ ((⟨[⟨"agent", 5⟩], some 10⟩ : TokenTracker).track_usage
        "read" 20).tracker.get_usage_breakdown
      = (⟨[⟨"agent", 5⟩], some 10⟩ : TokenTracker).get_usage_breakdown :=
  C2_reject_is_all_or_nothing ⟨[⟨"agent", 5⟩], some 10⟩ "read" 20 10 rfl
    (by decide) (by decide)

/-- C3: with non-negative token amounts (as at every call site of
`track_usage` in the repository), the running total is monotonically
non-decreasing: each single call, and hence any sequence of sequential
calls, can only keep or raise `get_total_usage()`. -/
theorem C3_total_monotone (t : TokenTracker) (tool : String) (amt : Int)
    (hamt : 0 ≤ amt) :
    t.get_total_usage ≤ ((t.track_usage tool amt).tracker).get_total_usage
    ∧ ∀ calls : List (String × Int), (∀ c ∈ calls, 0 ≤ c.2) →
        t.get_total_usage ≤ (t.runCalls calls).get_total_usage := by
  have step : ∀ (s : TokenTracker) (tl : String) (a : Int), 0 ≤ a →
      s.get_total_usage ≤ ((s.track_usage tl a).tracker).get_total_usage := by
    intro s tl a ha
    by_cases hc : budgetTruthy s.budget = true
      ∧ s.get_total_usage + a > s.budget.getD 0
    · rw [track_usage_reject s tl a hc]
    · rw [track_usage_append s tl a hc]
      have := get_total_usage_append s.usages s.budget ⟨tl, a⟩
      rw [show (⟨s.usages, s.budget⟩ : TokenTracker) = s from rfl] at this
      rw [this]
      exact le_add_of_nonneg_right ha
  refine ⟨step t tool amt hamt, ?_⟩
  intro calls
  induction calls generalizing t with
  | nil => intro _; exact le_refl _
  | cons c rest ih =>
    intro hall
    have h1 := step t c.1 c.2 (hall c (by simp))
    have h2 := ih ((t.track_usage c.1 c.2).tracker)
      (fun d hd => hall d (by simp [hd]))
    exact le_trans h1 h2

/-- Witness for C3: two sequential calls on a fresh unbudgeted tracker do not
decrease the total. -/
theorem C3_total_monotone_witness :
    (⟨[], none⟩ : TokenTracker).get_total_usage
      ≤ ((⟨[], none⟩ : TokenTracker).runCalls
          [("agent", 4), ("read", 2)]).get_total_usage :=
  (C3_total_monotone ⟨[], none⟩ "agent" 4 (by decide)).2
    [("agent", 4), ("read", 2)] (by decide)

/-- C4: in every tracker state, the breakdown's values sum to
`get_total_usage()`, the breakdown maps each tool to the cumulative amount
recorded for it, and the mapping is independent of the order in which the
usages were recorded. -/
theorem C4_breakdown_consistency (t : TokenTracker) :
    sumValues t.get_usage_breakdown = t.get_total_usage
    ∧ (∀ tool, dictGet t.get_usage_breakdown tool 0 = toolSum t.usages tool)
    ∧ ∀ t' : TokenTracker, t.usages.Perm t'.usages →
        ∀ tool, dictGet t'.get_usage_breakdown tool 0
          = dictGet t.get_usage_breakdown tool 0 := by
  obtain ⟨hn, hs, hg⟩ := breakdown_fold t.usages [] (by simp [dictKeys])
  refine ⟨?_, ?_, ?_⟩
  · rw [show t.get_usage_breakdown
        = t.usages.foldl
            (fun d u => dictSet d u.tool (dictGet d u.tool 0 + u.tokens)) []
      from rfl, hs]
    simp [sumValues, TokenTracker.get_total_usage]
  · intro tool
    rw [show t.get_usage_breakdown
        = t.usages.foldl
            (fun d u => dictSet d u.tool (dictGet d u.tool 0 + u.tokens)) []
      from rfl, hg tool]
    simp [dictGet]
  · intro t' hperm tool
    obtain ⟨_, _, hg'⟩ := breakdown_fold t'.usages [] (by simp [dictKeys])
    have hts : toolSum t.usages tool = toolSum t'.usages tool :=
      List.Perm.sum_eq (List.Perm.map _ (List.Perm.filter _ hperm))
    rw [show t.get_usage_breakdown
        = t.usages.foldl
            (fun d u => dictSet d u.tool (dictGet d u.tool 0 + u.tokens)) []
      from rfl, hg tool]
    rw [show t'.get_usage_breakdown
        = t'.usages.foldl
            (fun d u => dictSet d u.tool (dictGet d u.tool 0 + u.tokens)) []
      from rfl, hg' tool]
    simp [dictGet, hts]

/-- Witness for C4: the per-tool entry is the same for two trackers whose
usage lists are permutations of each other. -/
theorem C4_breakdown_consistency_witness :
    dictGet
        (⟨[⟨"read", 2⟩, ⟨"agent", 1⟩], none⟩ :
          TokenTracker).get_usage_breakdown "agent" 0
      = dictGet
        (⟨[⟨"agent", 1⟩, ⟨"read", 2⟩], none⟩ :
          TokenTracker).get_usage_breakdown "agent" 0 :=
  (C4_breakdown_consistency ⟨[⟨"agent", 1⟩, ⟨"read", 2⟩], none⟩).2.2
    ⟨[⟨"read", 2⟩, ⟨"agent", 1⟩], none⟩ (List.Perm.swap _ _ _) "agent"

/-- C9: a budget of `None` or `0` is falsy in the guard `if self.budget:`,
so the ceiling check never fires and every sequential call records its full
amount without logging. -/
theorem C9_falsy_budget_no_ceiling (t : TokenTracker) (tool : String)
    (amt : Int) (h : t.budget = none ∨ t.budget = some 0) :
    (t.track_usage tool amt).tracker.usages = t.usages ++ [⟨tool, amt⟩]
    ∧ (t.track_usage tool amt).errorLogged = false := by
  have hbt : budgetTruthy t.budget = false := by
    rcases h with h | h <;> simp [h, budgetTruthy]
  have ha := track_usage_append t tool amt
    (fun hc => by rw [hbt] at hc; exact absurd hc.1 (by simp))
  rw [ha]
  exact ⟨rfl, rfl⟩

/-- Witness for C9: with budget 0, a 100-token call is recorded even though
the total then exceeds 0. -/
theorem C9_falsy_budget_no_ceiling_witness :
    ((⟨[⟨"agent", 5⟩], some 0⟩ : TokenTracker).track_usage
        "read" 100).tracker.usages
      = [⟨"agent", 5⟩, ⟨"read", 100⟩]
    ∧ ((⟨[⟨"agent", 5⟩], some 0⟩ : TokenTracker).track_usage
        "read" 100).errorLogged = false :=
  C9_falsy_budget_no_ceiling ⟨[⟨"agent", 5⟩], some 0⟩ "read" 100 (Or.inr rfl)

/-- C10: `reset()` clears all recorded usages — the total becomes 0 and the
breakdown becomes the empty mapping — while the budget field is unchanged. -/
theorem C10_reset_clears_usages_keeps_budget (t : TokenTracker) :
    t.reset.get_total_usage = 0
    ∧ t.reset.get_usage_breakdown = []
    ∧ t.reset.budget = t.budget :=
  ⟨rfl, rfl, rfl⟩

/-- C5: the budget check of `track_usage` is not atomic. In the interleaving
in which two concurrent calls sharing one tracker (budget 10) both read
`get_total_usage()` before either appends, each per-call check passes (each
call alone also passes, shown by the first two conjuncts), both 6-token
additions are recorded, and the resulting total 12 exceeds the budget. -/
theorem C5_budget_check_race :
    ((⟨[], some 10⟩ : TokenTracker).track_usage "agent" 6).errorLogged = false
    ∧ ((⟨[], some 10⟩ : TokenTracker).track_usage "read" 6).errorLogged = false
    ∧ ((⟨[], some 10⟩ : TokenTracker).track_usage_from_snapshot "agent" 6
        (⟨[], some 10⟩ : TokenTracker).get_total_usage).errorLogged = false
    ∧ (((⟨[], some 10⟩ : TokenTracker).track_usage_from_snapshot "agent" 6
          (⟨[], some 10⟩ : TokenTracker).get_total_usage).tracker.track_usage_from_snapshot
            "read" 6
            (⟨[], some 10⟩ : TokenTracker).get_total_usage).errorLogged = false
    ∧ (((⟨[], some 10⟩ : TokenTracker).track_usage_from_snapshot "agent" 6
          (⟨[], some 10⟩ : TokenTracker).get_total_usage).tracker.track_usage_from_snapshot
            "read" 6
            (⟨[], some 10⟩ : TokenTracker).get_total_usage).tracker.usages
        = [⟨"agent", 6⟩, ⟨"read", 6⟩]
    ∧ (((⟨[], some 10⟩ : TokenTracker).track_usage_from_snapshot "agent" 6
          (⟨[], some 10⟩ : TokenTracker).get_total_usage).tracker.track_usage_from_snapshot
            "read" 6
            (⟨[], some 10⟩ : TokenTracker).get_total_usage).tracker.get_total_usage
        = 12
    ∧ (((⟨[], some 10⟩ : TokenTracker).track_usage_from_snapshot "agent" 6
          (⟨[], some 10⟩ : TokenTracker).get_total_usage).tracker.track_usage_from_snapshot
            "read" 6
            (⟨[], some 10⟩ : TokenTracker).get_total_usage).tracker.budget
        = some 10
    ∧ (12 : Int) > 10 := by decide

/-! Embedding of the agent: per-query processing, streaming, persistence. -/

/-- Kinds of actions appended to a task's action list by
`Agent._process_query` (deepresearch/agent.py: `SearchAction`,
`AnswerAction`). -/
inductive ActionKind where
  | search
  | answer
deriving DecidableEq

/-- External tool invocations the agent code can make: the chat completion,
the configured search function (`JinaSearch.search` / `BraveSearch.search`),
and the one-shot wrapper tools that exist in the repository but might or
might not be invoked from the processing loop. -/
inductive ToolCall where
  | chatCompletion
  | searchCall
  | readCall
  | evaluatorCall
  | errorAnalyzerCall
  | queryRewriterCall
  | dedupCall
deriving DecidableEq

/-- A `QueryResponse` task record as created and mutated by the agent
(`types.py` is absent from the sources; the shape is pinned by
`QueryResponse(request_id=..., status=..., actions=[])` and the field
accesses `task.status`, `task.actions`, `task.final_answer` in both
`agent.py` variants). -/
structure QueryTask (α : Type) where
  request_id : String
  status : String
  actions : List α
  final_answer : Option String
deriving DecidableEq

/-- Outcomes of the effectful statements executed by `Agent._process_query`
(deepresearch/agent.py, lines 141-187): the chat completion may raise or
return the message content; each `self.token_tracker.add_usage(...)` may
raise (`TokenTracker` defines no `add_usage` method, so at runtime this
attribute access raises `AttributeError`; the model keeps the outcome
abstract so the theorems hold either way); the search call may raise or
return search results. -/
structure AgentEnv where
  chatOutcome : Except String String
  addUsage1 : Except String Unit
  searchOutcome : Except String (List String)
  addUsage2 : Except String Unit

/-- Task state, external-call trace and raised-or-returned result of one
`_process_query` run. -/
structure ProcessOutcome where
  task : QueryTask ActionKind
  trace : List ToolCall
  result : Except String String

/-- Embedding of `Agent._process_query` (deepresearch/agent.py, lines
141-187), straight-line with an exception handler: one chat completion,
append a `SearchAction`, `add_usage`, one search call, append an
`AnswerAction`, `add_usage`, then mark the task completed and return the
answer; any exception marks the task `"error"`, stores the message and
re-raises. `trace` records the external tool invocations actually started. -/
def processQueryMain (env : AgentEnv) (task : QueryTask ActionKind) :
    ProcessOutcome :=
  match env.chatOutcome with
  | .error e =>
    ⟨{ task with status := "error", final_answer := some e },
      [.chatCompletion], .error e⟩
  | .ok answer =>
    let task1 := { task with actions := task.actions ++ [ActionKind.search] }
    match env.addUsage1 with
    | .error e =>
      ⟨{ task1 with status := "error", final_answer := some e },
        [.chatCompletion], .error e⟩
    | .ok _ =>
      match env.searchOutcome with
      | .error e =>
        ⟨{ task1 with status := "error", final_answer := some e },
          [.chatCompletion, .searchCall], .error e⟩
      | .ok _ =>
        let task2 :=
          { task1 with actions := task1.actions ++ [ActionKind.answer] }
        match env.addUsage2 with
        | .error e =>
          ⟨{ task2 with status := "error", final_answer := some e },
            [.chatCompletion, .searchCall], .error e⟩
        | .ok _ =>
          ⟨{ task2 with status := "completed", final_answer := some answer },
            [.chatCompletion, .searchCall], .ok answer⟩

/-- Embedding of `Agent._process_query` in the second variant
(deepresearch-py/deepresearch/agent.py, lines 66-75): the `try` body is
`pass`, which cannot raise, so the `else` branch always marks the task
completed; nothing else is touched and no tool is invoked. -/
def processQueryPy (task : QueryTask ActionKind) :
    QueryTask ActionKind × List ToolCall :=
  ({ task with status := "completed" }, [])

/-- C6: per-query processing is either a no-op recording no actions (the
deepresearch-py variant) or makes exactly one chat-completion call (the
deepresearch variant); in no environment does either variant invoke the
deduplicator, evaluator, error-analyzer or query-rewriter tools. -/
theorem C6_process_query_is_stub (env : AgentEnv)
    (task : QueryTask ActionKind) :
    ((processQueryPy task).1.actions = task.actions
      ∧ (processQueryPy task).2 = [])
    ∧ ((processQueryMain env task).trace.count ToolCall.chatCompletion = 1
      ∧ ToolCall.dedupCall ∉ (processQueryMain env task).trace
      ∧ ToolCall.evaluatorCall ∉ (processQueryMain env task).trace
      ∧ ToolCall.errorAnalyzerCall ∉ (processQueryMain env task).trace
      ∧ ToolCall.queryRewriterCall ∉ (processQueryMain env task).trace) := by
  obtain ⟨c, a1, s, a2⟩ := env
  refine ⟨⟨rfl, rfl⟩, ?_⟩
  cases c <;> cases a1 <;> cases s <;> cases a2 <;>
    simp [processQueryMain, List.count_cons, List.count_nil]

/-- Python truthiness of `task.final_answer`: `None` and the empty string
are falsy in `if task.final_answer:`. -/
def finalTruthy : Option String → Bool
  | none => false
  | some s => s != ""

/-- Embedding of the polling loop of `Agent.stream_events`
(deepresearch-py/deepresearch/agent.py, lines 49-59; the deepresearch
variant, agent.py lines 76-101, runs the same loop after one extra initial
progress event and with richer event payloads). Each list element is the
shared task state observed by one iteration of the
`while task.status == "running"` check; `cnt` is `last_action_count`. The
result is the list of actions yielded as progress events and whether the
final event was yielded (`if task.final_answer:` after the loop). An
exhausted schedule with the status still `"running"` models a consumer
still waiting: nothing further is yielded within the observed schedule. -/
def streamRun {α : Type} : List (QueryTask α) → Nat → List α × Bool
  | [], _ => ([], false)
  | s :: rest, cnt =>
    if s.status = "running" then
      if cnt < s.actions.length then
        ((s.actions.drop cnt) ++ (streamRun rest s.actions.length).1,
          (streamRun rest s.actions.length).2)
      else
        streamRun rest cnt
    else
      ([], finalTruthy s.final_answer)

/-- Actions held by the last snapshot of a schedule of running polls. -/
def lastPolled {α : Type} (pre : List (QueryTask α)) : List α :=
  match pre.getLast? with
  | some t => t.actions
  | none => []

/-- Actions of the first snapshot of a schedule. -/
def headActions {α : Type} : List (QueryTask α) → List α
  | [] => []
  | t :: _ => t.actions

lemma lastPolled_cons_cons {α : Type} (a b : QueryTask α)
    (rest : List (QueryTask α)) :
    lastPolled (a :: b :: rest) = lastPolled (b :: rest) := by
  simp [lastPolled, List.getLast?_cons_cons]

lemma drop_append_drop {α : Type} (l L : List α) (cnt : Nat)
    (h : l <+: L) (hcnt : cnt ≤ l.length) :
    l.drop cnt ++ L.drop l.length = L.drop cnt := by
  obtain ⟨r, rfl⟩ := h
  rw [List.drop_append_of_le_length hcnt, List.drop_left]

lemma streamRun_stops {α : Type} (pre : List (QueryTask α))
    (s : QueryTask α) (post : List (QueryTask α)) (cnt : Nat)
    (hrun : ∀ t ∈ pre, t.status = "running") (hs : ¬ s.status = "running") :
    streamRun (pre ++ s :: post) cnt = streamRun (pre ++ [s]) cnt := by
  induction pre generalizing cnt with
  | nil => simp [streamRun, hs]
  | cons a pre' ih =>
    have ha : a.status = "running" := hrun a (by simp)
    have hrun' : ∀ t ∈ pre', t.status = "running" :=
      fun t ht => hrun t (by simp [ht])
    by_cases hlt : cnt < a.actions.length <;>
      simp [streamRun, ha, hlt, ih _ hrun']

lemma streamRun_eq_lastPolled {α : Type} (s : QueryTask α)
    (hs : ¬ s.status = "running") :
    ∀ (pre : List (QueryTask α)) (cnt : Nat),
      (∀ t ∈ pre, t.status = "running") →
      List.Pairwise (fun a b => a.actions <+: b.actions) (pre ++ [s]) →
      cnt ≤ (headActions (pre ++ [s])).length →
      streamRun (pre ++ [s]) cnt
        = ((lastPolled pre).drop cnt, finalTruthy s.final_answer) := by
  intro pre
  induction pre with
  | nil =>
    intro cnt _ _ _
    simp [streamRun, hs, lastPolled]
  | cons a pre' ih =>
    intro cnt hrun hpair hcnt
    have hastat : a.status = "running" := hrun a (by simp)
    have hrun' : ∀ t ∈ pre', t.status = "running" :=
      fun t ht => hrun t (by simp [ht])
    have hpc := List.pairwise_cons.mp hpair
    have hrel : ∀ b ∈ pre' ++ [s], a.actions <+: b.actions := hpc.1
    have hpair' : List.Pairwise (fun a b => a.actions <+: b.actions)
        (pre' ++ [s]) := hpc.2
    have hhead : a.actions <+: headActions (pre' ++ [s]) := by
      cases pre' with
      | nil => exact hrel s (by simp)
      | cons b rest => exact hrel b (by simp)
    have hlen : a.actions.length ≤ (headActions (pre' ++ [s])).length :=
      hhead.length_le
    have hcnt' : cnt ≤ a.actions.length := by
      simpa [headActions] using hcnt
    by_cases hlt : cnt < a.actions.length
    · have hst : streamRun ((a :: pre') ++ [s]) cnt
          = ((a.actions.drop cnt)
              ++ (streamRun (pre' ++ [s]) a.actions.length).1,
            (streamRun (pre' ++ [s]) a.actions.length).2) := by
        simp [streamRun, hastat, hlt]
      rw [hst, ih a.actions.length hrun' hpair' hlen]
      cases pre' with
      | nil => simp [lastPolled]
      | cons b rest =>
        rw [lastPolled_cons_cons]
        have hlast : lastPolled (b :: rest) = ((b :: rest).getLast
            (List.cons_ne_nil b rest)).actions := by
          simp [lastPolled, List.getLast?_eq_getLast]
        have hal : a.actions <+: lastPolled (b :: rest) := by
          rw [hlast]
          apply hrel
          exact List.mem_append.mpr
            (Or.inl (List.getLast_mem (List.cons_ne_nil b rest)))
        simp [drop_append_drop _ _ _ hal hcnt']
    · have hceq : cnt = a.actions.length := le_antisymm hcnt' (not_lt.mp hlt)
      have hst : streamRun ((a :: pre') ++ [s]) cnt
          = streamRun (pre' ++ [s]) cnt := by
        simp [streamRun, hastat, hlt]
      rw [hst, ih cnt hrun' hpair' (by omega)]
      cases pre' with
      | nil => simp [lastPolled, hceq, List.drop_length]
      | cons b rest => rw [lastPolled_cons_cons]

/-- C7 is refuted on the code: in the legal schedule where the background
task appends action `0` and sets the status to `"completed"` between two
polls, the consumer's loop sees the non-running status first and exits
without yielding the appended action, emitting only the final event. The
action was appended yet yielded zero times, not exactly once. -/
theorem C7_counterexample_last_action_skipped :
    (⟨"r1", "running", [], none⟩ : QueryTask Nat).actions
      <+: (⟨"r1", "completed", [0], some "done"⟩ : QueryTask Nat).actions
    ∧ (⟨"r1", "running", [], none⟩ : QueryTask Nat).status = "running"
    ∧ (⟨"r1", "completed", [0], some "done"⟩ : QueryTask Nat).status
      ≠ "running"
    ∧ 0 ∈ (⟨"r1", "completed", [0], some "done"⟩ : QueryTask Nat).actions
    ∧ streamRun
        [⟨"r1", "running", [], none⟩, ⟨"r1", "completed", [0], some "done"⟩]
        0
      = ([], true) := by
  refine ⟨⟨[0], rfl⟩, rfl, by decide, by decide, by decide⟩

/-- C7 (corrected): over any polling schedule whose action list only grows
by appends, the yielded progress actions are exactly the action list seen by
the last poll that still observed status `"running"` — an order-preserving,
duplicate-free prefix of the final action list, so nothing is duplicated or
reordered, but actions appended in the same inter-poll interval as the
status change (or later) are never yielded. The stream's output is
independent of the snapshots after the first non-running poll, and the
final event is emitted iff `final_answer` is truthy there. -/
theorem C7_stream_events_amended {α : Type} (pre post : List (QueryTask α))
    (s : QueryTask α)
    (hrun : ∀ t ∈ pre, t.status = "running")
    (hs : s.status ≠ "running")
    (hgrow : List.Pairwise (fun a b => a.actions <+: b.actions)
      (pre ++ s :: post)) :
    streamRun (pre ++ s :: post) 0
      = (lastPolled pre, finalTruthy s.final_answer)
    ∧ lastPolled pre <+: s.actions := by
  have hsub : (pre ++ [s]).Sublist (pre ++ s :: post) := by
    apply List.Sublist.append_left
    simp
  have hpair : List.Pairwise (fun a b => a.actions <+: b.actions)
      (pre ++ [s]) := hgrow.sublist hsub
  have h1 := streamRun_stops pre s post 0 hrun hs
  have h2 := streamRun_eq_lastPolled s hs pre 0 hrun hpair (Nat.zero_le _)
  refine ⟨by rw [h1, h2, List.drop_zero], ?_⟩
  cases pre with
  | nil => exact List.nil_prefix
  | cons b rest =>
    have hsplit := (List.pairwise_append.mp hpair).2.2
    have hlast : lastPolled (b :: rest) = ((b :: rest).getLast
        (List.cons_ne_nil b rest)).actions := by
      simp [lastPolled, List.getLast?_eq_getLast]
    rw [hlast]
    exact hsplit _ (List.getLast_mem _) s (by simp)

/-- Witness for the amended C7 at a concrete schedule: one running poll that
sees action `0`, then a completed poll with actions `[0, 1]` and a truthy
answer; the stream yields exactly `[0]` and the final event. -/
theorem C7_stream_events_amended_witness :
    streamRun
        ([⟨"r1", "running", [0], none⟩] ++
          (⟨"r1", "completed", [0, 1], some "done"⟩ : QueryTask Nat) :: [])
        0
      = (lastPolled [(⟨"r1", "running", [0], none⟩ : QueryTask Nat)],
          finalTruthy (some "done"))
    ∧ lastPolled [(⟨"r1", "running", [0], none⟩ : QueryTask Nat)]
      <+: (⟨"r1", "completed", [0, 1], some "done"⟩ : QueryTask Nat).actions :=
  C7_stream_events_amended [⟨"r1", "running", [0], none⟩] []
    ⟨"r1", "completed", [0, 1], some "done"⟩
    (by intro t ht; simp at ht; rw [ht]) (by decide)
    (by
      refine List.pairwise_cons.mpr ⟨?_, List.pairwise_singleton _ _⟩
      intro b hb
      have hb' : b = ⟨"r1", "completed", [0, 1], some "done"⟩ := by
        simpa using hb
      rw [hb']
      exact ⟨[1], rfl⟩)

/-- Embedding of `get_task` (deepresearch/main.py, lines 193-214): read
`tasks/<request_id>.json` from the file system — modelled as an association
list from path to contents — returning its contents, with a missing file
(`FileNotFoundError`) turned into the HTTP 404 "Task not found" error. -/
def get_task (files : List (String × String)) (request_id : String) :
    Except Nat String :=
  match files.find? (fun kv => kv.1 == "tasks/" ++ request_id ++ ".json") with
  | some kv => Except.ok kv.2
  | none => Except.error 404

/-- Embedding of `store_task_result` (deepresearch/main.py, lines 66-82):
write the serialized result to `tasks/<request_id>.json`, overwriting any
previous file at that path. The function is defined in both `main.py`
variants but never invoked anywhere in the repository. -/
def store_task_result (files : List (String × String))
    (request_id result : String) : List (String × String) :=
  (files.filter (fun kv => !(kv.1 == "tasks/" ++ request_id ++ ".json")))
    ++ [("tasks/" ++ request_id ++ ".json", result)]

/-- Embedding of `Agent.process_query` (deepresearch/agent.py, lines
108-139) paired with the file-system effect of the call: the body creates a
fresh running task record, delegates to `_process_query`, and on success
stores the answer in the in-memory task record with status `"completed"`
(on an exception, status `"error"` and the message). No statement in
`process_query`, `_process_query`, or anything they call invokes
`store_task_result`, so the call performs no file writes: the file system
component is returned unchanged. -/
def process_query (env : AgentEnv) (request_id query : String)
    (files : List (String × String)) :
    QueryTask ActionKind × List (String × String) :=
  let o := processQueryMain env ⟨request_id, "running", [], none⟩
  match o.result with
  | Except.ok answer =>
    ({ o.task with status := "completed", final_answer := some answer },
      files)
  | Except.error e =>
    ({ o.task with status := "error", final_answer := some e }, files)

/-- C8 fails on the code: even in the most favorable run, in which every
external call succeeds and processing completes with a final answer,
`process_query` writes nothing to the file system (`store_task_result` is
dead code), so a subsequent `GET /api/v1/task/r1` returns the 404
"Task not found" error instead of the stored result. The last conjunct
shows the evidently intended wiring: had `store_task_result` been called on
completion, `get_task` would have returned the answer. -/
theorem C8_completed_answer_not_persisted :
    (process_query ⟨Except.ok "ans", Except.ok (), Except.ok [],
        Except.ok ()⟩ "r1" "q" []).1.status = "completed"
    ∧ (process_query ⟨Except.ok "ans", Except.ok (), Except.ok [],
        Except.ok ()⟩ "r1" "q" []).1.final_answer = some "ans"
    ∧ (process_query ⟨Except.ok "ans", Except.ok (), Except.ok [],
        Except.ok ()⟩ "r1" "q" []).2 = []
    ∧ get_task (process_query ⟨Except.ok "ans", Except.ok (), Except.ok [],
        Except.ok ()⟩ "r1" "q" []).2 "r1" = Except.error 404
    ∧ get_task (store_task_result [] "r1" "ans") "r1" = Except.ok "ans" :=
  ⟨rfl, rfl, rfl, rfl, rfl⟩
